import Mathlib

set_option linter.unusedVariables false
set_option linter.unnecessarySeqFocus false

/-!
Verification of the ImageConverter conversion pipeline
(`image_converter.py`): format resolution, single-image processing,
file enumeration and batch conversion, shallowly embedded in Lean.

Python integers are modelled as `Nat` (all dimensions in play are
non-negative); the float computation `int(float(h) * (W / float(w)))`
is modelled by exact IEEE-754 binary64 arithmetic (`scaledDim` below).
Filesystem interaction and the image library are modelled by explicit
data (`FSEntry` trees, an `Env` of decode/mkdir/save outcomes).
-/

/-- `SUPPORTED_FORMATS` dict from the source, as an association list in
its insertion order (Python dicts preserve insertion order). -/
def SUPPORTED_FORMATS : List (String × String) :=
  [("jpg", "JPEG"), ("jpeg", "JPEG"), ("png", "PNG"), ("webp", "WEBP"),
   ("bmp", "BMP"), ("tiff", "TIFF"), ("gif", "GIF")]

/-- Dictionary lookup `SUPPORTED_FORMATS[k]`; `none` models a `KeyError`. -/
def lookupFormat (k : String) : Option String :=
  (SUPPORTED_FORMATS.find? (fun p => p.1 == k)).map Prod.snd

/-- `next((k for k, v in SUPPORTED_FORMATS.items() if v == output_format), 'jpg')`
from `process_directory`: the first alias mapping to the format, else `"jpg"`. -/
def formatExt (output_format : String) : String :=
  ((SUPPORTED_FORMATS.find? (fun p => p.2 == output_format)).map Prod.fst).getD "jpg"

/-- Index of the last occurrence of `c` in `l` (Python `str.rfind`),
`none` when absent. -/
def rfindIdx (c : Char) (l : List Char) : Option Nat :=
  ((l.enum.filter (fun p => p.2 == c)).map Prod.fst).getLast?

/-- `os.path.splitext`: split off the extension starting at the last dot
of the basename, provided some non-dot character of the basename
precedes it (so `".bashrc"` has no extension). -/
def splitext (p : String) : String × String :=
  let l := p.data
  let sepIdx : Int := match rfindIdx '/' l with
    | some i => (i : Int)
    | none => -1
  let dotIdx : Int := match rfindIdx '.' l with
    | some i => (i : Int)
    | none => -1
  let hasStem : Bool := l.enum.any
    (fun q => decide (sepIdx < (q.1 : Int)) && decide ((q.1 : Int) < dotIdx) && (q.2 != '.'))
  if decide (sepIdx < dotIdx) && hasStem then
    match rfindIdx '.' l with
    | some i => (⟨l.take i⟩, ⟨l.drop i⟩)
    | none => (p, "")
  else (p, "")

/-- `os.path.basename`: the component after the last `/`. -/
def basename (p : String) : String :=
  match rfindIdx '/' p.data with
  | some i => ⟨p.data.drop (i + 1)⟩
  | none => p

/-- `os.path.dirname`: the part before the last `/` (empty when none). -/
def dirname (p : String) : String :=
  match rfindIdx '/' p.data with
  | some i => ⟨p.data.take i⟩
  | none => ""

/-- `os.path.join` for the paths this program builds. -/
def joinPath (a b : String) : String := a ++ "/" ++ b

/-- `os.path.relpath p base` for the paths this program builds (every
enumerated path starts with `base ++ "/"`). -/
def relpath (p base : String) : String :=
  if (base ++ "/").isPrefixOf p then ⟨p.data.drop (base.length + 1)⟩ else p

/-- Python `str.lower()` (all strings involved are ASCII format names,
extensions and file names). -/
def lowerStr (s : String) : String := ⟨s.data.map Char.toLower⟩

/-- Python `str.endswith(suffix)`: `suffix` is a suffix of `s`. -/
def endsWithStr (s suffix : String) : Bool := suffix.data.isSuffixOf s.data

/-- Python `ext.replace('.', '')`: every dot removed. -/
def removeDots (s : String) : String := ⟨s.data.filter (fun c => c != '.')⟩

/-- Python truthiness of the optional `specified_type` string:
`None` and `""` are falsy. -/
def strTruthy : Option String → Bool
  | none => false
  | some s => !(s == "")

/-- `get_output_format` from the source.  `Except.error k` models the
`KeyError` raised by `SUPPORTED_FORMATS[specified_type.lower()]` when the
key `k` is absent. -/
def get_output_format (output_path : String) (specified_type : Option String) :
    Except String String :=
  if strTruthy specified_type then
    let t := lowerStr (specified_type.getD "")
    match lookupFormat t with
    | some f => Except.ok f
    | none => Except.error t
  else
    let ext := removeDots (lowerStr (splitext output_path).2)
    match lookupFormat ext with
    | some f => Except.ok f
    | none => Except.ok "JPEG"

/-! The resize arithmetic `int(float(h) * (W / float(w)))` runs on IEEE-754
binary64 doubles, so it is modelled by exact binary64 arithmetic: a
non-negative double is a mantissa–exponent pair, and division and
multiplication round the exact result to 53 significant bits, nearest,
ties to even.  The magnitudes involved (image dimensions) are far inside
the normal range, so overflow and subnormals cannot occur, and the
int-to-double conversions are exact. -/

/-- Fuel-based ⌊log₂⌋ kernel (the fuel bounds the recursion depth, one
halving per step). -/
def nlog2 : Nat → Nat → Nat
  | 0, _ => 0
  | fuel + 1, n => if n ≤ 1 then 0 else nlog2 fuel (n / 2) + 1

/-- ⌊log₂ n⌋ for n ≥ 1 (and 0 at 0). -/
def natLog2 (n : Nat) : Nat := nlog2 n n

/-- Round a / b to the nearest integer, ties to even. -/
def rheRatio (a b : Nat) : Nat :=
  if 2 * (a % b) < b then a / b
  else if b < 2 * (a % b) then a / b + 1
  else if (a / b) % 2 == 0 then a / b else a / b + 1

/-- Is 2 ^ e ≤ a / b (exactly)? -/
def pow2le (e : Int) (a b : Nat) : Bool :=
  if 0 ≤ e then b * 2 ^ e.toNat ≤ a else b ≤ a * 2 ^ (-e).toNat

/-- ⌊log₂ (a / b)⌋ for a, b ≥ 1. -/
def qlog2 (a b : Nat) : Int :=
  if pow2le ((natLog2 a : Int) - (natLog2 b : Int)) a b then
    (natLog2 a : Int) - (natLog2 b : Int)
  else
    (natLog2 a : Int) - (natLog2 b : Int) - 1

/-- A non-negative binary64 value, as mantissa times 2 ^ exponent. -/
structure FloatVal where
  m : Nat
  ex : Int

/-- The exact rational value of a `FloatVal`. -/
def FloatVal.toQ (f : FloatVal) : ℚ := (f.m : ℚ) * (2:ℚ) ^ f.ex

/-- binary64 division a / b of exactly-converted naturals: scale the
exact quotient into [2^52, 2^53) and round to nearest, ties to even. -/
def fdivNat (a b : Nat) : FloatVal :=
  if 0 ≤ 52 - qlog2 a b then
    ⟨rheRatio (a * 2 ^ (52 - qlog2 a b).toNat) b, -(52 - qlog2 a b)⟩
  else
    ⟨rheRatio a (b * 2 ^ (-(52 - qlog2 a b)).toNat), -(52 - qlog2 a b)⟩

/-- binary64 product of an exactly-converted natural h with f: the
exact product mantissa is rounded to 53 bits when it does not fit. -/
def fmulNat (h : Nat) (f : FloatVal) : FloatVal :=
  if natLog2 (h * f.m) ≤ 52 then
    ⟨h * f.m, f.ex⟩
  else
    ⟨rheRatio (h * f.m) (2 ^ (natLog2 (h * f.m) - 52)),
     f.ex + (natLog2 (h * f.m) - 52)⟩

/-- Python `int()` truncation of the (non-negative) double. -/
def ftrunc (f : FloatVal) : Nat :=
  if 0 ≤ f.ex then f.m * 2 ^ f.ex.toNat else f.m / 2 ^ (-f.ex).toNat

/-- `int(float(h) * (W / float(w)))` from the resize step of
`process_image`, in exact binary64 semantics. -/
def scaledDim (h W w : Nat) : Nat := ftrunc (fmulNat h (fdivNat W w))

/-- A decoded PIL image: its color mode string and pixel dimensions
(`img.size = (width, height)`). -/
structure PILImage where
  mode : String
  width : Nat
  height : Nat
deriving DecidableEq, Repr

/-- Python truthiness of the optional integer `width` / `height`
arguments: `None` and `0` are falsy. -/
def truthy : Option Nat → Bool
  | none => false
  | some n => n != 0

/-- The color-mode step of `process_image`: grayscale requested means
`img.convert('L')`; otherwise an RGBA source headed to JPEG is
`img.convert('RGB')`; otherwise the mode is untouched. -/
def applyMode (img : PILImage) (output_format : String) (grayscale : Bool) : PILImage :=
  if grayscale then { img with mode := "L" }
  else if img.mode == "RGBA" && output_format == "JPEG" then { img with mode := "RGB" }
  else img

/-- The resize step of `process_image`: `wpercent = width / float(w)`
then `height = int(float(h) * float(wpercent))` (and symmetrically),
in exact binary64 semantics via `scaledDim`. -/
def applyResize (img : PILImage) (width height : Option Nat) : PILImage :=
  if truthy width || truthy height then
    if truthy width && !(truthy height) then
      { img with width := width.getD 0,
                 height := scaledDim img.height (width.getD 0) img.width }
    else if truthy height && !(truthy width) then
      { img with width := scaledDim img.width (height.getD 0) img.height,
                 height := height.getD 0 }
    else
      { img with width := width.getD 0, height := height.getD 0 }
  else img

/-- The transform pipeline of `process_image` between `Image.open` and
`img.save`: color-mode handling, then resize. -/
def transformImage (img : PILImage) (output_format : String)
    (width height : Option Nat) (grayscale : Bool) : PILImage :=
  applyResize (applyMode img output_format grayscale) width height

/-- Outcomes of the external effects `process_image` performs: decoding
the source (`Image.open`), creating the output directory
(`os.makedirs`), and encoding (`img.save`, whose success may depend on
the image handed to it, e.g. JPEG refusing alpha modes). -/
structure Env where
  openResult : Except String PILImage
  makedirsError : Option String
  saveError : PILImage → Option String

/-- The error line `process_image` prints:
`Error processing image (input_path): e` (color codes omitted). -/
def errLine (input_path e : String) : String :=
  "Error processing image (" ++ input_path ++ "): " ++ e

/-- Result of one `process_image` call: the returned boolean, the
printed error line if any, and the image handed to a successful
`img.save` if reached. -/
structure ProcResult where
  ok : Bool
  errMsg : Option String
  saved : Option PILImage
deriving DecidableEq, Repr

/-- `process_image` from the source: open, transform, makedirs, save,
with every failure caught and turned into `ok = false` plus a printed
error line. -/
def process_image (env : Env) (input_path output_path output_format : String)
    (quality : Nat) (width height : Option Nat) (grayscale : Bool) : ProcResult :=
  match env.openResult with
  | Except.error e => ⟨false, some (errLine input_path e), none⟩
  | Except.ok img0 =>
    let img := transformImage img0 output_format width height grayscale
    match env.makedirsError with
    | some e => ⟨false, some (errLine input_path e), none⟩
    | none =>
      match env.saveError img with
      | some e => ⟨false, some (errLine input_path e), none⟩
      | none => ⟨true, none, some img⟩

/-- One entry of a directory: a plain file or a subdirectory with its
own entries, in `os.listdir` order. -/
inductive FSEntry : Type where
  | file : String → FSEntry
  | dir : String → List FSEntry → FSEntry

/-- The name of a directory entry as `os.listdir` reports it. -/
def entryName : FSEntry → String
  | FSEntry.file n => n
  | FSEntry.dir n _ => n

/-- `valid_extensions` from `find_image_files`: each supported alias
with a leading dot. -/
def valid_extensions : List String :=
  SUPPORTED_FORMATS.map (fun p => "." ++ p.1)

/-- `file.lower().endswith(valid_extensions)`. -/
def matchesExt (name : String) : Bool :=
  valid_extensions.any (fun e => endsWithStr (lowerStr name) e)

mutual

/-- `os.walk` + filter, top-down: the matching files of the current
directory, then the subdirectories in listing order. -/
def walkTree (root : String) (entries : List FSEntry) : List String :=
  (entries.filterMap (fun e =>
    match e with
    | FSEntry.file n => if matchesExt n then some (joinPath root n) else none
    | FSEntry.dir _ _ => none))
  ++ walkSubdirs root entries

/-- Recurse into each subdirectory of the listing, in order. -/
def walkSubdirs (root : String) : List FSEntry → List String
  | [] => []
  | FSEntry.file _ :: rest => walkSubdirs root rest
  | FSEntry.dir n cs :: rest => walkTree (joinPath root n) cs ++ walkSubdirs root rest

end

/-- `find_image_files` from the source.  In non-recursive mode the code
filters `os.listdir` output by name alone — it never checks that an
entry is a file, so a subdirectory with a matching name is included. -/
def find_image_files (directory : String) (children : List FSEntry)
    (recursive : Bool) : List String :=
  if recursive then
    walkTree directory children
  else
    children.filterMap (fun e =>
      if matchesExt (entryName e) then some (joinPath directory (entryName e)) else none)

/-- The output path `process_directory` computes for one input file:
`output_dir[/rel_dir]/stem.ext`. -/
def output_path_for (output_dir input_dir input_path ext : String)
    (recursive : Bool) : String :=
  if recursive then
    let rel_path := relpath input_path input_dir
    let rel_dir := dirname rel_path
    let filename := (splitext (basename input_path)).1
    if rel_dir != "" then
      joinPath (joinPath output_dir rel_dir) (filename ++ "." ++ ext)
    else
      joinPath output_dir (filename ++ "." ++ ext)
  else
    joinPath output_dir ((splitext (basename input_path)).1 ++ "." ++ ext)

/-- Result of `process_directory`: the returned
`(success_count, len(image_files))` pair plus the list of files on
which `process_image` was actually invoked. -/
structure BatchResult where
  success_count : Nat
  total : Nat
  processed : List String
deriving DecidableEq, Repr

/-- `process_directory` from the source.  `benv` gives each input path
its external-effect outcomes. -/
def process_directory (benv : String → Env) (input_dir : String)
    (children : List FSEntry) (output_dir output_format : String) (quality : Nat)
    (width height : Option Nat) (recursive grayscale : Bool) : BatchResult :=
  let image_files := find_image_files input_dir children recursive
  if image_files.isEmpty then
    ⟨0, 0, []⟩
  else
    let ext := formatExt output_format
    let success_count := image_files.foldl
      (fun acc p =>
        if (process_image (benv p) p (output_path_for output_dir input_dir p ext recursive)
              output_format quality width height grayscale).ok
        then acc + 1 else acc) 0
    ⟨success_count, image_files.length, image_files⟩

/-- The final report `main` prints after a directory run: the
no-files-found notice when `total_count == 0`, otherwise the
`success_count/total_count` summary. -/
def mainReport (success_count total_count : Nat) : String :=
  if total_count == 0 then
    "No image files found in the specified directory."
  else
    "Processing completed: " ++ toString success_count ++ "/" ++ toString total_count
      ++ " images successfully converted."

/-! ## Helper lemmas -/

theorem nlog2_spec : ∀ (fuel n : Nat), 1 ≤ n → n ≤ fuel →
    2 ^ nlog2 fuel n ≤ n ∧ n < 2 ^ (nlog2 fuel n + 1) := by
  intro fuel
  induction fuel with
  | zero => intro n h1 h2; omega
  | succ f ih =>
    intro n h1 h2
    by_cases hn : n ≤ 1
    · have hn1 : n = 1 := by omega
      subst hn1
      simp [nlog2]
    · have hu : nlog2 (f + 1) n = nlog2 f (n / 2) + 1 := by
        simp [nlog2, hn]
      rw [hu]
      have h12 : 1 ≤ n / 2 := by omega
      have hf : n / 2 ≤ f := by omega
      obtain ⟨l, u⟩ := ih (n / 2) h12 hf
      constructor
      · have : 2 ^ (nlog2 f (n / 2) + 1) = 2 * 2 ^ nlog2 f (n / 2) := by ring
        omega
      · have : 2 ^ (nlog2 f (n / 2) + 1 + 1) = 2 * 2 ^ (nlog2 f (n / 2) + 1) := by ring
        omega

theorem natLog2_spec (n : Nat) (h : 1 ≤ n) :
    2 ^ natLog2 n ≤ n ∧ n < 2 ^ (natLog2 n + 1) :=
  nlog2_spec n n h (Nat.le_refl n)

theorem rheRatio_int_bound (a b : Nat) (hb : 1 ≤ b) :
    2 * a ≤ 2 * (b * rheRatio a b) + b ∧ 2 * (b * rheRatio a b) ≤ 2 * a + b := by
  have h1 : b * (a / b) + a % b = a := Nat.div_add_mod a b
  have h2 : a % b < b := Nat.mod_lt _ hb
  unfold rheRatio
  split
  · generalize hx : b * (a / b) = x at *
    omega
  · split
    · rw [Nat.mul_add, Nat.mul_one]
      generalize hx : b * (a / b) = x at *
      omega
    · split
      · generalize hx : b * (a / b) = x at *
        omega
      · rw [Nat.mul_add, Nat.mul_one]
        generalize hx : b * (a / b) = x at *
        omega

theorem rheRatio_q_bound (a b : Nat) (hb : 1 ≤ b) :
    |((rheRatio a b : Nat) : ℚ) - (a : ℚ) / b| ≤ 1 / 2 := by
  obtain ⟨hl, hu⟩ := rheRatio_int_bound a b hb
  have hb0 : (0:ℚ) < (b:ℚ) := by exact_mod_cast hb
  have hl' : 2 * (a:ℚ) ≤ 2 * ((b:ℚ) * (rheRatio a b : ℚ)) + b := by exact_mod_cast hl
  have hu' : 2 * ((b:ℚ) * (rheRatio a b : ℚ)) ≤ 2 * (a:ℚ) + b := by exact_mod_cast hu
  have ht : (b:ℚ) * ((a:ℚ)/b) = a := by field_simp
  rw [abs_le]
  constructor
  · rw [← mul_le_mul_right hb0]
    nlinarith
  · rw [← mul_le_mul_right hb0]
    nlinarith

theorem pow2le_iff (e : Int) (a b : Nat) (hb : 1 ≤ b) :
    pow2le e a b = true ↔ (2:ℚ) ^ e ≤ (a : ℚ) / b := by
  have hb0 : (0:ℚ) < (b:ℚ) := by exact_mod_cast hb
  unfold pow2le
  split
  · rename_i he
    rw [decide_eq_true_eq]
    rw [le_div_iff₀ hb0]
    rw [← Int.toNat_of_nonneg he, zpow_natCast]
    constructor
    · intro hle
      have : ((b * 2 ^ e.toNat : Nat) : ℚ) ≤ (a : ℚ) := by exact_mod_cast hle
      push_cast at this
      linarith
    · intro hle
      have : ((b * 2 ^ e.toNat : Nat) : ℚ) ≤ (a : ℚ) := by push_cast; linarith
      exact_mod_cast this
  · rename_i he
    push_neg at he
    rw [decide_eq_true_eq]
    have hk : (2:ℚ) ^ e = 1 / (2:ℚ) ^ (-e).toNat := by
      rw [eq_div_iff (by positivity)]
      rw [← zpow_natCast (2:ℚ) (-e).toNat, Int.toNat_of_nonneg (by omega : (0:ℤ) ≤ -e)]
      rw [← zpow_add₀ (by norm_num : (2:ℚ) ≠ 0)]
      simp
    rw [hk, div_le_div_iff₀ (by positivity) hb0, one_mul]
    constructor
    · intro hle
      have : ((b : Nat) : ℚ) ≤ ((a * 2 ^ (-e).toNat : Nat) : ℚ) := by exact_mod_cast hle
      push_cast at this
      linarith
    · intro hle
      have : ((b : Nat) : ℚ) ≤ ((a * 2 ^ (-e).toNat : Nat) : ℚ) := by push_cast; linarith
      exact_mod_cast this

theorem qlog2_spec (a b : Nat) (ha : 1 ≤ a) (hb : 1 ≤ b) :
    (2:ℚ) ^ qlog2 a b ≤ (a:ℚ) / b ∧ (a:ℚ) / b < (2:ℚ) ^ (qlog2 a b + 1) := by
  obtain ⟨la1, la2⟩ := natLog2_spec a ha
  obtain ⟨lb1, lb2⟩ := natLog2_spec b hb
  have hb0 : (0:ℚ) < (b:ℚ) := by exact_mod_cast hb
  have ha0 : (0:ℚ) < (a:ℚ) := by exact_mod_cast ha
  have qa1 : (2:ℚ) ^ ((natLog2 a : Nat) : Int) ≤ (a:ℚ) := by
    rw [zpow_natCast]; exact_mod_cast la1
  have qa2 : (a:ℚ) < 2 ^ (((natLog2 a : Nat) : Int) + 1) := by
    have : (((natLog2 a : Nat) : Int) + 1) = ((natLog2 a + 1 : Nat) : Int) := by push_cast; ring
    rw [this, zpow_natCast]; exact_mod_cast la2
  have qb1 : (2:ℚ) ^ ((natLog2 b : Nat) : Int) ≤ (b:ℚ) := by
    rw [zpow_natCast]; exact_mod_cast lb1
  have qb2 : (b:ℚ) < 2 ^ (((natLog2 b : Nat) : Int) + 1) := by
    have : (((natLog2 b : Nat) : Int) + 1) = ((natLog2 b + 1 : Nat) : Int) := by push_cast; ring
    rw [this, zpow_natCast]; exact_mod_cast lb2
  set d : Int := (natLog2 a : Int) - (natLog2 b : Int) with hd
  have hup : (a:ℚ)/b < 2 ^ (d + 1) := by
    rw [div_lt_iff₀ hb0]
    calc (a:ℚ) < 2 ^ (((natLog2 a : Nat) : Int) + 1) := qa2
    _ = 2 ^ (d + 1) * 2 ^ ((natLog2 b : Nat) : Int) := by
        rw [← zpow_add₀ (by norm_num : (2:ℚ) ≠ 0)]
        congr 1
        omega
    _ ≤ 2 ^ (d + 1) * b := mul_le_mul_of_nonneg_left qb1 (by positivity)
  have hlo : 2 ^ (d - 1) < (a:ℚ)/b := by
    rw [lt_div_iff₀ hb0]
    calc 2 ^ (d - 1) * (b:ℚ) < 2 ^ (d - 1) * 2 ^ (((natLog2 b : Nat) : Int) + 1) :=
        mul_lt_mul_of_pos_left qb2 (by positivity)
    _ = 2 ^ ((natLog2 a : Nat) : Int) := by
        rw [← zpow_add₀ (by norm_num : (2:ℚ) ≠ 0)]
        congr 1
        omega
    _ ≤ a := qa1
  unfold qlog2
  rw [← hd]
  split
  · rename_i hp
    exact ⟨(pow2le_iff d a b hb).mp hp, hup⟩
  · rename_i hp
    have hnp : ¬ (2:ℚ) ^ d ≤ (a:ℚ)/b := fun hc => hp ((pow2le_iff d a b hb).mpr hc)
    push_neg at hnp
    constructor
    · exact le_of_lt hlo
    · have : d - 1 + 1 = d := by omega
      rw [this]
      exact hnp

theorem toQ_nonneg (f : FloatVal) : 0 ≤ f.toQ := by
  unfold FloatVal.toQ
  positivity

theorem fdivNat_err (a b : Nat) (ha : 1 ≤ a) (hb : 1 ≤ b) (he : qlog2 a b ≤ 52) :
    |(fdivNat a b).toQ - (a:ℚ)/b| ≤ (a:ℚ)/b * (2:ℚ) ^ (-53 : ℤ) := by
  obtain ⟨hq1, hq2⟩ := qlog2_spec a b ha hb
  have hb0 : (0:ℚ) < (b:ℚ) := by exact_mod_cast hb
  have hs : (0:ℤ) ≤ 52 - qlog2 a b := by omega
  unfold fdivNat
  rw [if_pos hs]
  unfold FloatVal.toQ
  have hrb := rheRatio_q_bound (a * 2 ^ (52 - qlog2 a b).toNat) b hb
  have hcast : ((a * 2 ^ (52 - qlog2 a b).toNat : Nat) : ℚ) / b
      = (a:ℚ)/b * (2:ℚ) ^ (52 - qlog2 a b) := by
    push_cast
    rw [← zpow_natCast (2:ℚ) (52 - qlog2 a b).toNat, Int.toNat_of_nonneg hs]
    ring
  rw [hcast] at hrb
  have hprod : (2:ℚ) ^ (52 - qlog2 a b) * (2:ℚ) ^ (-(52 - qlog2 a b)) = 1 := by
    rw [← zpow_add₀ (by norm_num : (2:ℚ) ≠ 0)]
    simp
  have key : (rheRatio (a * 2 ^ (52 - qlog2 a b).toNat) b : ℚ) * (2:ℚ) ^ (-(52 - qlog2 a b))
      - (a:ℚ)/b
      = ((rheRatio (a * 2 ^ (52 - qlog2 a b).toNat) b : ℚ)
          - (a:ℚ)/b * (2:ℚ) ^ (52 - qlog2 a b)) * (2:ℚ) ^ (-(52 - qlog2 a b)) := by
    rw [sub_mul, mul_assoc, hprod, mul_one]
  rw [key, abs_mul, abs_of_pos (show (0:ℚ) < (2:ℚ) ^ (-(52 - qlog2 a b)) by positivity)]
  calc |(rheRatio (a * 2 ^ (52 - qlog2 a b).toNat) b : ℚ)
          - (a:ℚ)/b * (2:ℚ) ^ (52 - qlog2 a b)| * (2:ℚ) ^ (-(52 - qlog2 a b))
      ≤ 1 / 2 * (2:ℚ) ^ (-(52 - qlog2 a b)) :=
        mul_le_mul_of_nonneg_right hrb (by positivity)
    _ = (2:ℚ) ^ (qlog2 a b - 53) := by
        have h53 : qlog2 a b - 53 = -(52 - qlog2 a b) + (-1) := by omega
        rw [h53, zpow_add₀ (by norm_num : (2:ℚ) ≠ 0)]
        norm_num
        ring
    _ ≤ (a:ℚ)/b * (2:ℚ) ^ (-53 : ℤ) := by
        have hsplit : (2:ℚ) ^ (qlog2 a b - 53)
            = (2:ℚ) ^ (qlog2 a b) * (2:ℚ) ^ (-53 : ℤ) := by
          rw [← zpow_add₀ (by norm_num : (2:ℚ) ≠ 0)]
          congr 1
        rw [hsplit]
        exact mul_le_mul_of_nonneg_right hq1 (by positivity)

theorem fmulNat_err (h : Nat) (f : FloatVal) :
    |(fmulNat h f).toQ - (h:ℚ) * f.toQ| ≤ (h:ℚ) * f.toQ * (2:ℚ) ^ (-53 : ℤ) := by
  have h2 : (2:ℚ) ≠ 0 := by norm_num
  unfold fmulNat
  split
  · rename_i hlg
    unfold FloatVal.toQ
    dsimp only
    have hz : ((h * f.m : Nat) : ℚ) * (2:ℚ) ^ f.ex - (h:ℚ) * ((f.m:ℚ) * (2:ℚ) ^ f.ex) = 0 := by
      push_cast
      ring
    rw [hz, abs_zero]
    positivity
  · rename_i hlg
    push_neg at hlg
    have hn1 : 1 ≤ h * f.m := by
      by_contra hc
      have h0 : h * f.m = 0 := by omega
      rw [h0] at hlg
      simp [natLog2, nlog2] at hlg
    obtain ⟨hl1, hl2⟩ := natLog2_spec (h * f.m) hn1
    unfold FloatVal.toQ
    dsimp only
    set n := h * f.m with hn
    set L := natLog2 n with hL
    have hval : (h:ℚ) * ((f.m:ℚ) * (2:ℚ) ^ f.ex) = (n:ℚ) * (2:ℚ) ^ f.ex := by
      rw [hn]
      push_cast
      ring
    rw [hval]
    have hp2 : (1:Nat) ≤ 2 ^ (L - 52) := Nat.one_le_two_pow
    have hrb := rheRatio_q_bound n (2 ^ (L - 52)) hp2
    have hcast2 : ((2 ^ (L - 52) : Nat) : ℚ) = (2:ℚ) ^ ((L:ℤ) - 52) := by
      push_cast
      rw [← zpow_natCast (2:ℚ) (L - 52)]
      congr 1
      omega
    rw [hcast2] at hrb
    have hdivmul : (n:ℚ) / (2:ℚ) ^ ((L:ℤ) - 52) = (n:ℚ) * (2:ℚ) ^ (52 - (L:ℤ)) := by
      rw [div_eq_mul_inv, ← zpow_neg, neg_sub]
    rw [hdivmul] at hrb
    have hsum : (n:ℚ) * (2:ℚ) ^ f.ex
        = ((n:ℚ) * (2:ℚ) ^ (52 - (L:ℤ))) * (2:ℚ) ^ (f.ex + ((L:ℤ) - 52)) := by
      rw [mul_assoc, ← zpow_add₀ h2]
      congr 2
      omega
    rw [hsum]
    have hfactor : |(rheRatio n (2 ^ (L - 52)) : ℚ) * (2:ℚ) ^ (f.ex + ((L:ℤ) - 52))
        - ((n:ℚ) * (2:ℚ) ^ (52 - (L:ℤ))) * (2:ℚ) ^ (f.ex + ((L:ℤ) - 52))|
        = |(rheRatio n (2 ^ (L - 52)) : ℚ) - (n:ℚ) * (2:ℚ) ^ (52 - (L:ℤ))|
          * (2:ℚ) ^ (f.ex + ((L:ℤ) - 52)) := by
      rw [← sub_mul, abs_mul, abs_of_pos (show (0:ℚ) < (2:ℚ) ^ (f.ex + ((L:ℤ) - 52)) by positivity)]
    rw [hfactor]
    have hnL : (2:ℚ) ^ ((L:ℤ)) ≤ (n:ℚ) := by
      rw [hL, zpow_natCast]
      exact_mod_cast hl1
    calc |(rheRatio n (2 ^ (L - 52)) : ℚ) - (n:ℚ) * (2:ℚ) ^ (52 - (L:ℤ))|
          * (2:ℚ) ^ (f.ex + ((L:ℤ) - 52))
        ≤ 1 / 2 * (2:ℚ) ^ (f.ex + ((L:ℤ) - 52)) :=
          mul_le_mul_of_nonneg_right hrb (by positivity)
      _ = (2:ℚ) ^ ((L:ℤ))
            * ((2:ℚ) ^ (52 - (L:ℤ)) * (2:ℚ) ^ (f.ex + ((L:ℤ) - 52)) * (2:ℚ) ^ (-53 : ℤ)) := by
          rw [show (1:ℚ)/2 = (2:ℚ) ^ (-1 : ℤ) by norm_num]
          rw [← zpow_add₀ h2, ← zpow_add₀ h2, ← zpow_add₀ h2, ← zpow_add₀ h2]
          congr 1
          omega
      _ ≤ (n:ℚ)
            * ((2:ℚ) ^ (52 - (L:ℤ)) * (2:ℚ) ^ (f.ex + ((L:ℤ) - 52)) * (2:ℚ) ^ (-53 : ℤ)) :=
          mul_le_mul_of_nonneg_right hnL (by positivity)
      _ = ((n:ℚ) * (2:ℚ) ^ (52 - (L:ℤ))) * (2:ℚ) ^ (f.ex + ((L:ℤ) - 52)) * (2:ℚ) ^ (-53 : ℤ) := by
          ring

theorem ftrunc_eq_floor (f : FloatVal) : (ftrunc f : ℤ) = ⌊f.toQ⌋ := by
  unfold ftrunc FloatVal.toQ
  split
  · rename_i hex
    have hv : (f.m : ℚ) * (2:ℚ) ^ f.ex = ((f.m * 2 ^ f.ex.toNat : Nat) : ℚ) := by
      push_cast
      rw [← zpow_natCast (2:ℚ) f.ex.toNat, Int.toNat_of_nonneg hex]
    rw [hv, Int.floor_natCast]
  · rename_i hex
    push_neg at hex
    have hik : f.ex = -((-f.ex).toNat : ℤ) := by omega
    have h2k : (0:ℚ) < ((2 ^ (-f.ex).toNat : Nat) : ℚ) := by positivity
    have hv : (f.m : ℚ) * (2:ℚ) ^ f.ex = (f.m : ℚ) / ((2 ^ (-f.ex).toNat : Nat) : ℚ) := by
      have hpow : ((2 ^ (-f.ex).toNat : Nat) : ℚ) = (2:ℚ) ^ (-f.ex) := by
        push_cast
        rw [← zpow_natCast (2:ℚ) (-f.ex).toNat, Int.toNat_of_nonneg (by omega : (0:ℤ) ≤ -f.ex)]
      rw [hpow, div_eq_mul_inv, ← zpow_neg, neg_neg]
    rw [hv, eq_comm]
    rw [Int.floor_eq_iff]
    have hdm : 2 ^ (-f.ex).toNat * (f.m / 2 ^ (-f.ex).toNat) + f.m % 2 ^ (-f.ex).toNat = f.m :=
      Nat.div_add_mod _ _
    have hmlt : f.m % 2 ^ (-f.ex).toNat < 2 ^ (-f.ex).toNat :=
      Nat.mod_lt _ (by positivity)
    constructor
    · rw [le_div_iff₀ h2k]
      exact_mod_cast Nat.div_mul_le_self f.m (2 ^ (-f.ex).toNat)
    · rw [div_lt_iff₀ h2k]
      have hlt : f.m < (f.m / 2 ^ (-f.ex).toNat + 1) * 2 ^ (-f.ex).toNat := by
        rw [Nat.add_mul, Nat.one_mul, Nat.mul_comm]
        generalize hx : 2 ^ (-f.ex).toNat * (f.m / 2 ^ (-f.ex).toNat) = x at hdm ⊢
        omega
      exact_mod_cast hlt

theorem scaledDim_bound (h W w : Nat) (hh : 1 ≤ h) (hW : 1 ≤ W) (hw : 1 ≤ w)
    (bh : h ≤ 65535) (bW : W ≤ 65535) (bw : w ≤ 65535) :
    scaledDim h W w ≤ h * W / w ∧ h * W / w ≤ scaledDim h W w + 1 ∧
    (¬ w ∣ h * W → scaledDim h W w = h * W / w) := by
  have hw0 : (0:ℚ) < (w:ℚ) := by exact_mod_cast hw
  have hh0 : (0:ℚ) < (h:ℚ) := by exact_mod_cast hh
  have hW0 : (0:ℚ) < (W:ℚ) := by exact_mod_cast hW
  obtain ⟨hq1, hq2⟩ := qlog2_spec W w hW hw
  have hqe : qlog2 W w ≤ 52 := by
    by_contra hc
    push_neg at hc
    have h1 : (2:ℚ) ^ (53:ℤ) ≤ (2:ℚ) ^ qlog2 W w := by
      apply zpow_le_zpow_right₀ (by norm_num) (by omega)
    have h2 : (W:ℚ)/w ≤ W := div_le_self (le_of_lt hW0) (by exact_mod_cast hw)
    have h3 : (W:ℚ) ≤ 65535 := by exact_mod_cast bW
    have h4 : (2:ℚ) ^ (53:ℤ) ≤ 65535 := by linarith
    norm_num at h4
  have hdiv := fdivNat_err W w hW hw hqe
  set x := (fdivNat W w).toQ with hx
  have hx0 : 0 ≤ x := toQ_nonneg _
  set q : ℚ := (W:ℚ)/(w:ℚ) with hq
  have hq0 : 0 < q := by positivity
  have hmul := fmulNat_err h (fdivNat W w)
  rw [← hx] at hmul
  set y := (fmulNat h (fdivNat W w)).toQ with hy
  have hcval : (2:ℚ) ^ (-53 : ℤ) = 1 / 9007199254740992 := by norm_num
  rw [hcval] at hdiv hmul
  have habs1 := abs_le.mp hdiv
  have habs2 := abs_le.mp hmul
  have hxu : x ≤ q * (1 + 1/9007199254740992) := by linarith [habs1.2]
  have hxl : q * (1 - 1/9007199254740992) ≤ x := by linarith [habs1.1]
  have hhxu : (h:ℚ) * x ≤ (h:ℚ) * (q * (1 + 1/9007199254740992)) :=
    mul_le_mul_of_nonneg_left hxu (le_of_lt hh0)
  have hhxl : (h:ℚ) * (q * (1 - 1/9007199254740992)) ≤ (h:ℚ) * x :=
    mul_le_mul_of_nonneg_left hxl (le_of_lt hh0)
  have hhq0 : 0 < (h:ℚ) * q := by positivity
  have herr : |y - (h:ℚ) * q| ≤ (h:ℚ) * q * (4/9007199254740992) := by
    rw [abs_le]
    constructor
    · linarith [habs2.1, hhxl, hhq0]
    · linarith [habs2.2, hhxu, hhq0]
  have hQb : (h:ℚ) * q ≤ 4294967296 := by
    have hq3 : q ≤ (W:ℚ) := by
      rw [hq]
      exact div_le_self (le_of_lt hW0) (by exact_mod_cast hw)
    have hhb : (h:ℚ) ≤ 65535 := by exact_mod_cast bh
    have hWb : (W:ℚ) ≤ 65535 := by exact_mod_cast bW
    have s1 : (h:ℚ) * q ≤ (h:ℚ) * W := mul_le_mul_of_nonneg_left hq3 (le_of_lt hh0)
    have s2 : (h:ℚ) * W ≤ 65535 * 65535 :=
      mul_le_mul hhb hWb (le_of_lt hW0) (by norm_num)
    linarith
  have herr2 : |y - (h:ℚ) * q| ≤ 1/524288 := by
    have hb := abs_le.mp herr
    rw [abs_le]
    constructor <;> linarith [hb.1, hb.2, hQb, hhq0]
  have hNr : (w:ℚ) * ((h * W / w : Nat) : ℚ) + (((h * W) % w : Nat) : ℚ)
      = ((h * W : Nat) : ℚ) := by
    exact_mod_cast Nat.div_add_mod (h * W) w
  have hQeq : (h:ℚ) * q
      = ((h * W / w : Nat) : ℚ) + (((h * W) % w : Nat) : ℚ) / w := by
    rw [hq]
    field_simp
    push_cast at hNr ⊢
    linarith
  set NQ : ℚ := ((h * W / w : Nat) : ℚ) with hNQ
  set rQ : ℚ := (((h * W) % w : Nat) : ℚ) with hrQ
  have hr0 : 0 ≤ rQ := by positivity
  have hrlt : (h * W) % w < w := Nat.mod_lt _ (by omega)
  have hrle : rQ ≤ (w:ℚ) - 1 := by
    rw [hrQ]
    have hle : (h * W) % w ≤ w - 1 := by omega
    calc (((h * W) % w : Nat) : ℚ) ≤ ((w - 1 : Nat) : ℚ) := by exact_mod_cast hle
    _ = (w:ℚ) - 1 := by
        rw [Nat.cast_sub hw]
        norm_num
  have hwle : (w:ℚ) ≤ 65535 := by exact_mod_cast bw
  have hinvw : (1:ℚ)/65535 ≤ 1/(w:ℚ) := by
    gcongr
  have hyl : NQ + rQ/w - 1/524288 ≤ y := by
    have hb := (abs_le.mp herr2).1
    rw [hQeq] at hb
    linarith
  have hyu : y ≤ NQ + rQ/w + 1/524288 := by
    have hb := (abs_le.mp herr2).2
    rw [hQeq] at hb
    linarith
  have hdivb : rQ / w ≤ 1 - 1/65535 := by
    have h1 : rQ / w ≤ ((w:ℚ) - 1)/w := by gcongr
    have h2 : ((w:ℚ) - 1)/w = 1 - 1/w := by field_simp
    linarith
  have hyup : y < NQ + 1 := by linarith
  have hfl : (scaledDim h W w : ℤ) = ⌊y⌋ := by
    rw [hy]
    exact ftrunc_eq_floor _
  have hfu : ⌊y⌋ < ((h * W / w : Nat) : ℤ) + 1 := by
    apply Int.floor_lt.mpr
    have hc : (((((h * W / w : Nat) : ℤ)) + 1 : ℤ) : ℚ) = NQ + 1 := by
      rw [hNQ]
      norm_cast
    rw [hc]
    exact hyup
  by_cases hdvd : (h * W) % w = 0
  · have hrQ0 : rQ = 0 := by
      rw [hrQ, hdvd]
      norm_num
    have hfl2 : ((h * W / w : Nat) : ℤ) - 1 ≤ ⌊y⌋ := by
      apply Int.le_floor.mpr
      have hc : (((((h * W / w : Nat) : ℤ)) - 1 : ℤ) : ℚ) = NQ - 1 := by
        rw [hNQ, Int.cast_sub, Int.cast_one, Int.cast_natCast]
      rw [hc]
      rw [hrQ0, zero_div] at hyl
      linarith
    refine ⟨by omega, by omega, fun hnd => absurd (Nat.dvd_of_mod_eq_zero hdvd) hnd⟩
  · have hr1 : (1:ℚ) ≤ rQ := by
      rw [hrQ]
      exact_mod_cast (by omega : 1 ≤ (h * W) % w)
    have hdivl : (1:ℚ)/65535 ≤ rQ / w := by
      have h1 : (1:ℚ)/w ≤ rQ/w := by gcongr
      linarith
    have hflN : ((h * W / w : Nat) : ℤ) ≤ ⌊y⌋ := by
      apply Int.le_floor.mpr
      have hc : ((((h * W / w : Nat) : ℤ)) : ℚ) = NQ := by
        rw [hNQ]
        norm_cast
      rw [hc]
      linarith
    exact ⟨by omega, by omega, fun _ => by omega⟩


theorem applyResize_mode (img : PILImage) (w h : Option Nat) :
    (applyResize img w h).mode = img.mode := by
  unfold applyResize
  repeat' split
  all_goals rfl

theorem applyMode_width (img : PILImage) (f : String) (g : Bool) :
    (applyMode img f g).width = img.width := by
  unfold applyMode
  repeat' split
  all_goals rfl

theorem applyMode_height (img : PILImage) (f : String) (g : Bool) :
    (applyMode img f g).height = img.height := by
  unfold applyMode
  repeat' split
  all_goals rfl

theorem foldl_if_count {α : Type} (f : α → Bool) (l : List α) (n : Nat) :
    l.foldl (fun acc p => if f p then acc + 1 else acc) n = n + l.countP f := by
  induction l generalizing n with
  | nil => simp
  | cons a t ih =>
    cases hfa : f a <;> simp [hfa, ih, List.countP_cons] <;> try omega

theorem countP_not_add {α : Type} (f : α → Bool) (l : List α) :
    l.countP f + l.countP (fun a => !(f a)) = l.length := by
  induction l with
  | nil => rfl
  | cons a t ih =>
    cases hfa : f a <;> simp [List.countP_cons, hfa] <;> omega

/-! ## Claims -/

/-- The one-below-floor case of the resize arithmetic is real: for a
3×15 image and `width=49`, the double computation
`int(15.0 * (49/3.0)) = int(244.99999999999997)` yields 244, one below
the exact `⌊15·49/3⌋ = 245`. -/
theorem scaledDim_one_below_example :
    scaledDim 15 49 3 = 244 ∧ 15 * 49 / 3 = 245 := by decide

/-- C1, counterexample: the claim says the derived dimension is rounded,
but the code truncates the double-precision product with `int(...)`.
For a 3×2 image and `width=4` the code computes height
`int(2.0 * (4/3.0)) = 2`, while `round(2 × 4 / 3) = 3`. -/
theorem resize_width_only_not_round_cex :
    (transformImage ⟨"RGB", 3, 2⟩ "PNG" (some 4) none false).height = 2 ∧
    round ((2 * 4 : ℚ) / 3) = 3 :=
  ⟨rfl, by norm_num [round_eq]⟩

/-- C1 (amended): with exactly one non-zero target dimension (all
dimensions between 1 and 65535), the other dimension is the truncation
`int(float(h) * (W / float(w)))` of the double-precision product, not a
rounding: it equals the exact floor `⌊h·W/w⌋` whenever the exact ratio
is not an integer, and in general is `⌊h·W/w⌋` or `⌊h·W/w⌋ - 1`, the
shortfall possible only when `w` divides `h·W` (e.g. a 3×15 image with
`width=49` yields 244, one below the exact 245). -/
theorem resize_one_axis_float_trunc (img : PILImage) (fmt : String) (g : Bool) (W H : Nat)
    (hw : 1 ≤ img.width) (hh : 1 ≤ img.height) (hW : 1 ≤ W) (hH : 1 ≤ H)
    (bw : img.width ≤ 65535) (bh : img.height ≤ 65535) (bW : W ≤ 65535) (bH : H ≤ 65535) :
    ((transformImage img fmt (some W) none g).width = W ∧
     (transformImage img fmt (some W) none g).height ≤ img.height * W / img.width ∧
     img.height * W / img.width ≤ (transformImage img fmt (some W) none g).height + 1 ∧
     (¬ img.width ∣ img.height * W →
       (transformImage img fmt (some W) none g).height = img.height * W / img.width)) ∧
    ((transformImage img fmt none (some H) g).height = H ∧
     (transformImage img fmt none (some H) g).width ≤ img.width * H / img.height ∧
     img.width * H / img.height ≤ (transformImage img fmt none (some H) g).width + 1 ∧
     (¬ img.height ∣ img.width * H →
       (transformImage img fmt none (some H) g).width = img.width * H / img.height)) := by
  have hW2 : (W != 0) = true := by simpa using (by omega : W ≠ 0)
  have hH2 : (H != 0) = true := by simpa using (by omega : H ≠ 0)
  have e1w : (transformImage img fmt (some W) none g).width = W := by
    simp [transformImage, applyResize, truthy, hW2]
  have e1 : (transformImage img fmt (some W) none g).height
      = scaledDim img.height W img.width := by
    simp [transformImage, applyResize, truthy, hW2, applyMode_width, applyMode_height]
  have e2h : (transformImage img fmt none (some H) g).height = H := by
    simp [transformImage, applyResize, truthy, hH2]
  have e2 : (transformImage img fmt none (some H) g).width
      = scaledDim img.width H img.height := by
    simp [transformImage, applyResize, truthy, hH2, applyMode_width, applyMode_height]
  obtain ⟨k1, k2, k3⟩ := scaledDim_bound img.height W img.width hh hW hw bh bW bw
  obtain ⟨l1, l2, l3⟩ := scaledDim_bound img.width H img.height hw hH hh bw bH bh
  rw [e1w, e1, e2h, e2]
  exact ⟨⟨rfl, k1, k2, k3⟩, rfl, l1, l2, l3⟩

/-- Witness for C1 (amended): a 3×2 image with `width=4` gets height
`2·4/3 = 2` (the exact ratio is not an integer, so the truncation hits
the exact floor); symmetrically `height=3` gives width `3·3/2 = 4`. -/
theorem resize_one_axis_float_trunc_witness :
    (transformImage ⟨"RGB", 3, 2⟩ "PNG" (some 4) none false).height = 2 * 4 / 3 ∧
    (transformImage ⟨"RGB", 3, 2⟩ "PNG" none (some 3) false).width = 3 * 3 / 2 :=
  ⟨(resize_one_axis_float_trunc ⟨"RGB", 3, 2⟩ "PNG" false 4 3 (by decide) (by decide)
      (by decide) (by decide) (by decide) (by decide) (by decide) (by decide)).1.2.2.2
      (by decide),
   (resize_one_axis_float_trunc ⟨"RGB", 3, 2⟩ "PNG" false 4 3 (by decide) (by decide)
      (by decide) (by decide) (by decide) (by decide) (by decide) (by decide)).2.2.2.2
      (by decide)⟩

/-- C2, counterexample: an explicit format name outside the alias table
makes `get_output_format` raise `KeyError` rather than return a value. -/
theorem get_output_format_unknown_explicit_cex :
    get_output_format "out.png" (some "xyz") = Except.error "xyz" := rfl

/-- C2 (amended): an explicit, non-empty format name wins and is mapped
case-insensitively through the alias table provided it is a supported
alias (an unsupported name raises `KeyError`); without an explicit name
the resolver never fails: the path's extension is mapped through the
same table and an unrecognized extension yields JPEG. -/
theorem get_output_format_amended (p t f : String) :
    (strTruthy (some t) = true → lookupFormat (lowerStr t) = some f →
      get_output_format p (some t) = Except.ok f) ∧
    (∃ f2, get_output_format p none = Except.ok f2) ∧
    (lookupFormat (removeDots (lowerStr (splitext p).2)) = none →
      get_output_format p none = Except.ok "JPEG") := by
  refine ⟨?_, ?_, ?_⟩
  · intro ht hl
    simp [get_output_format, ht, hl]
  · cases hl : lookupFormat (removeDots (lowerStr (splitext p).2)) with
    | some f2 => exact ⟨f2, by simp [get_output_format, strTruthy, hl]⟩
    | none => exact ⟨"JPEG", by simp [get_output_format, strTruthy, hl]⟩
  · intro hl
    simp [get_output_format, strTruthy, hl]

/-- Witness for C2 (amended): explicit `"JPG"` resolves to JPEG
case-insensitively; an unrecognized extension with no explicit name
defaults to JPEG. -/
theorem get_output_format_amended_witness :
    get_output_format "x.png" (some "JPG") = Except.ok "JPEG" ∧
    get_output_format "x.xyz" none = Except.ok "JPEG" :=
  ⟨(get_output_format_amended "x.png" "JPG" "JPEG").1 rfl rfl,
   (get_output_format_amended "x.xyz" "" "").2.2 rfl⟩

/-- C3: the non-recursive enumerator filters `os.listdir` by name only
and never checks that an entry is a file.  A directory containing one
matching file `a.png` plus a subdirectory named `sub.png` has exactly
one matching file, yet enumeration yields two entries, including the
subdirectory's path. -/
theorem find_image_files_includes_matching_dir :
    find_image_files "d" [FSEntry.dir "sub.png" [], FSEntry.file "a.png"] false
      = ["d/sub.png", "d/a.png"] ∧
    (([FSEntry.dir "sub.png" [], FSEntry.file "a.png"] : List FSEntry).countP
      (fun e => match e with
        | FSEntry.file n => matchesExt n
        | FSEntry.dir _ _ => false)) = 1 :=
  ⟨rfl, rfl⟩

/-- C4: `process_image` always returns a boolean: either it succeeds
with no error output, or it fails and the printed line carries the
offending input path together with the underlying message. -/
theorem process_image_total_boolean (env : Env) (i o f : String) (q : Nat)
    (w h : Option Nat) (g : Bool) :
    ((process_image env i o f q w h g).ok = true ∧
      (process_image env i o f q w h g).errMsg = none) ∨
    ((process_image env i o f q w h g).ok = false ∧
      ∃ e, (process_image env i o f q w h g).errMsg = some (errLine i e)) := by
  obtain ⟨op, mke, sv⟩ := env
  cases op with
  | error e => exact Or.inr ⟨rfl, e, rfl⟩
  | ok img0 =>
    cases mke with
    | some e => exact Or.inr ⟨rfl, e, rfl⟩
    | none =>
      cases hsv : sv (transformImage img0 f w h g) with
      | some e => refine Or.inr ⟨?_, e, ?_⟩ <;> simp [process_image, hsv]
      | none => refine Or.inl ⟨?_, ?_⟩ <;> simp [process_image, hsv]

/-- C5: with the grayscale flag set, the image handed to a successful
save has single-channel mode `"L"`, whatever the source mode and target
format (the grayscale branch shadows the RGBA-to-JPEG flattening). -/
theorem grayscale_saved_mode_L (env : Env) (i o f : String) (q : Nat)
    (w h : Option Nat) (img : PILImage)
    (hs : (process_image env i o f q w h true).saved = some img) :
    img.mode = "L" := by
  obtain ⟨op, mke, sv⟩ := env
  cases op with
  | error e => simp [process_image] at hs
  | ok img0 =>
    cases mke with
    | some e => simp [process_image] at hs
    | none =>
      cases hsv : sv (transformImage img0 f w h true) with
      | some e => simp [process_image, hsv] at hs
      | none =>
        simp [process_image, hsv] at hs
        subst hs
        simp [transformImage, applyResize_mode, applyMode]

/-- Witness for C5: an RGBA source converted to JPEG with grayscale
requested saves a mode-"L" image. -/
theorem grayscale_saved_mode_L_witness :
    (process_image ⟨Except.ok ⟨"RGBA", 4, 4⟩, none, fun _ => none⟩ "a.png" "o.jpg" "JPEG"
        90 none none true).saved = some ⟨"L", 4, 4⟩ ∧
    (PILImage.mk "L" 4 4).mode = "L" :=
  ⟨rfl, grayscale_saved_mode_L ⟨Except.ok ⟨"RGBA", 4, 4⟩, none, fun _ => none⟩
      "a.png" "o.jpg" "JPEG" 90 none none ⟨"L", 4, 4⟩ rfl⟩

/-- C6, counterexample: the code flattens only sources whose mode is
exactly `"RGBA"`.  A mode-"LA" source (luminance + alpha, so it has an
alpha channel) headed to JPEG is passed to the encoder unflattened:
its mode stays `"LA"` and never becomes three-channel `"RGB"`. -/
theorem alpha_flatten_la_cex :
    (transformImage ⟨"LA", 8, 8⟩ "JPEG" none none false).mode = "LA" ∧
    (transformImage ⟨"LA", 8, 8⟩ "JPEG" none none false).mode ≠ "RGB" :=
  ⟨rfl, by decide⟩

/-- C6 (amended): without grayscale, a source of mode `"RGBA"` headed to
JPEG is flattened to three-channel `"RGB"` before encoding, and the
conversion succeeds whenever the environment decodes the source, can
create the output directory, and can save `"RGB"` images — even if the
encoder would reject images that still had alpha. -/
theorem rgba_jpeg_flatten_succeeds (env : Env) (i o : String) (q : Nat)
    (w h : Option Nat) (img0 : PILImage)
    (hopen : env.openResult = Except.ok img0) (hmode : img0.mode = "RGBA")
    (hmk : env.makedirsError = none)
    (hsave : ∀ im : PILImage, im.mode = "RGB" → env.saveError im = none) :
    (process_image env i o "JPEG" q w h false).ok = true ∧
    ∃ im, (process_image env i o "JPEG" q w h false).saved = some im ∧ im.mode = "RGB" := by
  have hm : (transformImage img0 "JPEG" w h false).mode = "RGB" := by
    simp [transformImage, applyResize_mode, applyMode, hmode]
  have hsv := hsave _ hm
  refine ⟨?_, ⟨transformImage img0 "JPEG" w h false, ?_, hm⟩⟩ <;>
    simp [process_image, hopen, hmk, hsv]

/-- Witness for C6 (amended): an 8×8 RGBA source converts to JPEG
successfully even under an encoder that rejects RGBA input. -/
theorem rgba_jpeg_flatten_succeeds_witness :
    (process_image ⟨Except.ok ⟨"RGBA", 8, 8⟩, none,
        fun im => if im.mode == "RGBA" then some "cannot write mode RGBA as JPEG" else none⟩
      "a.png" "o.jpg" "JPEG" 90 none none false).ok = true :=
  (rgba_jpeg_flatten_succeeds ⟨Except.ok ⟨"RGBA", 8, 8⟩, none,
      fun im => if im.mode == "RGBA" then some "cannot write mode RGBA as JPEG" else none⟩
    "a.png" "o.jpg" 90 none none ⟨"RGBA", 8, 8⟩ rfl rfl rfl
    (fun im him => by simp [him])).1

/-- C7: when the enumerator finds no files, `process_directory` returns
`(0, 0)` having invoked no conversion, and `main`'s report for that
outcome differs from its report for a batch whose files all failed. -/
theorem empty_batch_zero_zero (benv : String → Env) (input_dir : String)
    (children : List FSEntry) (output_dir fmt : String) (q : Nat)
    (w h : Option Nat) (r g : Bool)
    (hempty : find_image_files input_dir children r = []) :
    process_directory benv input_dir children output_dir fmt q w h r g = ⟨0, 0, []⟩ ∧
    (∀ s t : Nat, t ≠ 0 → mainReport 0 0 ≠ mainReport s t) := by
  constructor
  · simp [process_directory, hempty]
  · intro s t ht hEq
    have h2 : (mainReport s t).data.head? = some 'P' := by
      unfold mainReport
      rw [if_neg (by simpa using ht)]
      rfl
    rw [← hEq] at h2
    exact absurd h2 (by decide)

/-- Witness for C7: an empty directory yields no files and the batch
result is `(0, 0)` with nothing processed. -/
theorem empty_batch_zero_zero_witness :
    find_image_files "in" ([] : List FSEntry) false = [] ∧
    process_directory (fun _ => ⟨Except.error "no", none, fun _ => none⟩) "in" [] "out" "JPEG"
      90 none none false false = ⟨0, 0, []⟩ :=
  ⟨rfl, (empty_batch_zero_zero (fun _ => ⟨Except.error "no", none, fun _ => none⟩)
      "in" [] "out" "JPEG" 90 none none false false rfl).1⟩

/-- C8: `process_directory` returns `success_count ≤ total`, `total` is
exactly the number of files the enumerator yields, and every enumerated
file is either one success or one failure
(`success_count + failures = total`). -/
theorem batch_counts_invariant (benv : String → Env) (input_dir : String)
    (children : List FSEntry) (output_dir fmt : String) (q : Nat)
    (w h : Option Nat) (r g : Bool) :
    (process_directory benv input_dir children output_dir fmt q w h r g).success_count ≤
      (process_directory benv input_dir children output_dir fmt q w h r g).total ∧
    (process_directory benv input_dir children output_dir fmt q w h r g).total =
      (find_image_files input_dir children r).length ∧
    (process_directory benv input_dir children output_dir fmt q w h r g).success_count +
      ((find_image_files input_dir children r).countP (fun p =>
        !(process_image (benv p) p
            (output_path_for output_dir input_dir p (formatExt fmt) r)
            fmt q w h g).ok)) =
      (process_directory benv input_dir children output_dir fmt q w h r g).total := by
  by_cases h0 : find_image_files input_dir children r = []
  · simp [process_directory, h0]
  · have hx : (find_image_files input_dir children r).isEmpty = false := by
      simpa [List.isEmpty_iff] using h0
    simp only [process_directory, hx, Bool.false_eq_true, if_false]
    rw [foldl_if_count]
    simp only [Nat.zero_add]
    exact ⟨List.countP_le_length _, trivial, countP_not_add _ _⟩

/-- C9: a `0` passed for a dimension is falsy in Python and hence acts
as an absent dimension: `width=0, height=None` leaves the size
untouched, and `width=0, height=H` behaves exactly like the height-only
case. -/
theorem zero_dimension_as_absent (img : PILImage) (fmt : String) (g : Bool) (H : Nat) :
    ((transformImage img fmt (some 0) none g).width = img.width ∧
     (transformImage img fmt (some 0) none g).height = img.height) ∧
    transformImage img fmt (some 0) (some H) g = transformImage img fmt none (some H) g := by
  refine ⟨⟨?_, ?_⟩, rfl⟩ <;>
    simp [transformImage, applyResize, truthy, applyMode_width, applyMode_height]

/-- C10: the flat-mode destination path depends only on the input
filename's stem and the first alias of the target format, so inputs
whose names differ only in extension collide on one destination path;
the first alias of JPEG is `"jpg"`, never `"jpeg"`. -/
theorem dest_path_stem_and_first_alias (output_dir id1 id2 p1 p2 fmt : String)
    (hstem : (splitext (basename p1)).1 = (splitext (basename p2)).1) :
    output_path_for output_dir id1 p1 (formatExt fmt) false =
      output_path_for output_dir id2 p2 (formatExt fmt) false ∧
    formatExt "JPEG" = "jpg" ∧ formatExt "JPEG" ≠ "jpeg" := by
  refine ⟨?_, rfl, by decide⟩
  simp [output_path_for, hstem]

/-- Witness for C10: `in/a.png` and `in/a.jpg` share the stem `a` and
map to the same destination under a JPEG target. -/
theorem dest_path_stem_and_first_alias_witness :
    (splitext (basename "in/a.png")).1 = (splitext (basename "in/a.jpg")).1 ∧
    output_path_for "out" "in" "in/a.png" (formatExt "JPEG") false =
      output_path_for "out" "in" "in/a.jpg" (formatExt "JPEG") false :=
  ⟨rfl, (dest_path_stem_and_first_alias "out" "in" "in" "in/a.png" "in/a.jpg" "JPEG" rfl).1⟩
